import Mathlib

/-!
# bbscope: the Bugcrowd scope-extraction pipeline

A shallow embedding of `pkg/platforms/bugcrowd/bugcrowd.go` and `pkg/scope/scope.go`.

* Go strings are Lean strings (sequences of Unicode code points).
* The HTTP executor (`whttp.SendHTTPRequest`) is a parameter: a function from a
  request to either a transport error or a response.  Every request that is
  sent is appended to an explicit request log, so that the order and number of
  requests can be stated.
* The document/JSON query capability (`goquery`, `gjson`) is a parameter: a
  record of the accessors that the source applies to a response body, each
  returning the values that the source reads from it.  The `engagements` value of
  a listing page is kept with its JSON shape, because the source reads it both
  through `result.Array()` and through `result.ForEach`.
* `utils.Log.Fatal` / `log.Fatal` terminate the process: a function that can
  reach them returns an `Outcome`, whose `fatal` case carries the logged message.
* A Go run-time panic (index out of range) is the `panic` case of `Outcome`.
* A loop without a bound in the source takes a `fuel` argument and returns
  `none` when the fuel is used up.
-/

set_option autoImplicit false

namespace Bugcrowd

/-! ## Go standard-library string functions used by the source -/

/-- Go `unicode.IsSpace`: the Unicode White_Space code points. -/
def isSpace (c : Char) : Bool :=
  let n := c.toNat
  (9 ≤ n && n ≤ 13) || n == 0x20 || n == 0x85 || n == 0xA0 || n == 0x1680 ||
  (0x2000 ≤ n && n ≤ 0x200A) || n == 0x2028 || n == 0x2029 || n == 0x202F ||
  n == 0x205F || n == 0x3000

/-- Go `strings.TrimLeftFunc(s, unicode.IsSpace)` on the code points. -/
def trimLeft : List Char → List Char
  | [] => []
  | c :: cs => if isSpace c then trimLeft cs else c :: cs

/-- Go `strings.TrimSpace`: drop leading and trailing white space. -/
def TrimSpace (s : String) : String :=
  ⟨(trimLeft (trimLeft s.data).reverse).reverse⟩

/-- Go `strings.HasPrefix`. -/
def HasPrefix (s pre : String) : Bool :=
  pre.data.isPrefixOf s.data

/-- Go `strings.Contains`: some suffix of `s` starts with `sub`. -/
def Contains (s sub : String) : Bool :=
  s.data.tails.any (fun t => sub.data.isPrefixOf t)

/-- Pieces of a code-point list between occurrences of the separator `sep`;
`cur` is the piece being read, in reverse. -/
def splitAux (sep : Char) : List Char → List Char → List String
  | [], cur => [⟨cur.reverse⟩]
  | c :: cs, cur =>
    if c = sep then ⟨cur.reverse⟩ :: splitAux sep cs [] else splitAux sep cs (c :: cur)

/-- Go `strings.Split(s, sep)` for a separator of one code point. -/
def Split (s : String) (sep : Char) : List String :=
  splitAux sep s.data []

/-! ## Outcomes of a run -/

/-- How a piece of the program ends: normally with a value, by a fatal log call
(`utils.Log.Fatal`, `log.Fatal`: the process exits), or by a Go run-time panic. -/
inductive Outcome (α : Type) where
  | ok (a : α)
  | fatal (msg : String)
  | panic (msg : String)
  deriving DecidableEq, Repr

/-! ## Data model (`pkg/scope/scope.go`) -/

/-- One asset of a program (`scope.ScopeElement`). -/
structure ScopeElement where
  Target : String
  Description : String
  Category : String
  deriving DecidableEq, Repr

/-- The scope of one program (`scope.ProgramData`). -/
structure ProgramData where
  Url : String
  Name : String
  InScope : List ScopeElement
  OutOfScope : List ScopeElement
  deriving DecidableEq, Repr

/-! ## Category resolution -/

/-- The map literal of `GetCategories`. -/
def categories : List (String × List String) :=
  [("url", ["website"]),
   ("api", ["api"]),
   ("mobile", ["android", "ios"]),
   ("android", ["android"]),
   ("apple", ["ios"]),
   ("other", ["other"]),
   ("hardware", ["hardware"])]

/-- Source `GetCategories`.  `ToLower` is Go `strings.ToLower`, whose Unicode case
tables are not part of the repository; a key that is absent from the map is
fatal (`utils.Log.Fatal("Invalid category")`). -/
def GetCategories (ToLower : String → String) (input : String) : Outcome (List String) :=
  match categories.lookup (ToLower input) with
  | some selectedCategory => .ok selectedCategory
  | none => .fatal "Invalid category"

/-- Lower-casing of the ASCII letters only; agrees with Go `strings.ToLower` on
ASCII strings. -/
def asciiToLower (s : String) : String :=
  ⟨s.data.map (fun c => if 'A' ≤ c ∧ c ≤ 'Z' then Char.ofNat (c.toNat + 32) else c)⟩


/-! ## External collaborators -/

/-- A request header (`whttp.WHTTPHeader`). -/
structure WHTTPHeader where
  Name : String
  Value : String
  deriving DecidableEq, Repr

/-- A request (`whttp.WHTTPReq`); the body is empty in every request modelled here. -/
structure WHTTPReq where
  Method : String
  URL : String
  Headers : List WHTTPHeader
  deriving DecidableEq, Repr

/-- A response (`whttp.WHTTPRes`). -/
structure WHTTPRes where
  StatusCode : Nat
  BodyString : String
  deriving DecidableEq, Repr

deriving instance DecidableEq for Except

/-- The HTTP executor: a transport error (`Except.error`) or a response. -/
abbrev Executor := WHTTPReq → Except String WHTTPRes

/-- One value that `result.ForEach` passes to its callback in `GetProgramHandles`,
as read by `value.Get("briefUrl").String()`, `value.Get("name").String()` and
`value.Get("accessStatus").String()`. -/
structure Engagement where
  briefUrl : String
  name : String
  accessStatus : String
  deriving DecidableEq, Repr

/-- The `gjson.Result` of `gjson.Get(body, "engagements")`, by the JSON shape of
the value: non-existent or `null`, an array, an object, or a scalar (string,
number, `true`, `false`). -/
inductive Result where
  | missing
  | array (items : List Engagement)
  | object (members : List Engagement)
  | scalar
  deriving DecidableEq, Repr

/-- The length of gjson `result.Array()`: the empty array for a non-existent or
`null` value, the elements of an array, and a one-element array holding the
value itself for every other value. -/
def Result.lenArray : Result → Nat
  | .missing => 0
  | .array items => items.length
  | .object _ => 1
  | .scalar => 1

/-- The values that gjson `result.ForEach` passes to its callback, in order: none
for a non-existent value, the elements of an array, the member values of an
object, and the value itself for a scalar (every `Get` on it reads ""). -/
def Result.ForEach : Result → List Engagement
  | .missing => []
  | .array items => items
  | .object members => members
  | .scalar => [⟨"", "", ""⟩]

/-- One target, as read by `.Get("name").String()`, `.Get("uri").String()`,
`.Get("category").String()` and `.Get("description").String()`. -/
structure Target where
  name : String
  uri : String
  category : String
  description : String
  deriving DecidableEq, Repr

/-- One element of `data.scope` of a brief document: `value.Get("inScope").Bool()`
and the elements of `value.Get("targets")`. -/
structure ScopeGroup where
  inScope : Bool
  targets : List Target
  deriving DecidableEq, Repr

/-- The document/JSON query capability, one accessor per query of the source. -/
structure Query where
  /-- The result of `gjson.Get(body, "engagements")`. -/
  engagements : String → Result
  /-- The `data-api-endpoints` attribute of the `ResearcherEngagementBrief` div
  (`none` when the attribute does not exist); an error when the document cannot
  be parsed. -/
  apiEndpoints : String → Except String (Option String)
  /-- Value of `gjson.Get(attr, "engagementBriefApi.getBriefVersionDocument").String()`. -/
  getBriefVersionDocument : String → String
  /-- Elements of `gjson.Get(body, "data.scope")`. -/
  scope : String → List ScopeGroup
  /-- Elements of `gjson.Get(body, "groups.#.targets_url").Array()`, as strings. -/
  targetsUrls : String → List String
  /-- Value of `gjson.Get(body, "groups.<i>.in_scope").Bool()`. -/
  groupInScope : String → Nat → Bool
  /-- The rows `targets.0`, ..., `targets.<n-1>`, where `n` is `targets.#`. -/
  targets : String → List Target

/-- The requests issued so far, oldest first. -/
abbrev Log := List WHTTPReq

def USER_AGENT : String :=
  "Mozilla/5.0 (X11; Linux x86_64; rv:82.0) Gecko/20100101 Firefox/82.0"

/-- A Go `map[string]string` as an association list with distinct keys. -/
abbrev Dict := List (String × String)

/-- Go `m[k] = v`: replace the value of an existing key, or add the key. -/
def mapSet : Dict → String → String → Dict
  | [], k, v => [(k, v)]
  | (k', v') :: rest, k, v =>
    if k' = k then (k, v) :: rest else (k', v') :: mapSet rest k v

/-- Go `m[k]`: the value of the key, or the zero value `""`. -/
def mapGet (m : Dict) (k : String) : String :=
  (m.lookup k).getD ""

/-! ## Login: the redirect handler -/

/-- The `CheckRedirect` closure of `Login`, as a function of the current value of
the captured variable `loginChallenge` and of `req.URL.String()`; the result is
the new value of `loginChallenge`.  Indexing the split at `[1]` panics when the
split has one element. -/
def CheckRedirect (loginChallenge : String) (url : String) : Outcome String :=
  if Contains url "login_challenge" then
    match (Split url '=')[1]? with
    | some v => .ok v
    | none => .panic "index out of range [1] with length 1"
  else .ok loginChallenge

/-! ## Program directory walker -/

/-- The request of `GetProgramHandles` for page `pageIndex`. -/
def listRequest (sessionToken engagementType : String) (pageIndex : Nat) : WHTTPReq :=
  { Method := "GET",
    URL := "https://bugcrowd.com/engagements.json?category=" ++ engagementType ++
      "&sort_by=promoted&sort_direction=desc&page=" ++ toString pageIndex,
    Headers := [⟨"Cookie", "_bugcrowd_session=" ++ sessionToken⟩,
                ⟨"User-Agent", USER_AGENT⟩] }

/-- The body of `result.ForEach` in `GetProgramHandles`, applied to one element. -/
def addEngagement (pvtOnly : Bool) (acc : List String × Dict) (value : Engagement) :
    List String × Dict :=
  let programURL := value.briefUrl
  let programName := value.name
  let accessStatus := value.accessStatus
  if !pvtOnly || (pvtOnly && accessStatus != "open") then
    (acc.1 ++ [programURL], mapSet acc.2 programURL programName)
  else acc

/-- The `for` loop of `GetProgramHandles`.  The loop has no bound in the source;
`fuel` bounds the number of iterations and `none` means the bound was reached. -/
def GetProgramHandlesLoop (exec : Executor) (q : Query) (sessionToken engagementType : String)
    (pvtOnly : Bool) : Nat → Nat → List String → Dict → Log →
    Option (Outcome (List String × Dict) × Log)
  | 0, _, _, _, _ => none
  | fuel + 1, pageIndex, paths, dictionary, log =>
    let req := listRequest sessionToken engagementType pageIndex
    match exec req with
    | .error err => some (.fatal err, log ++ [req])
    | .ok res =>
      let result := q.engagements res.BodyString
      if result.lenArray = 0 then some (.ok (paths, dictionary), log ++ [req])
      else
        let acc := result.ForEach.foldl (addEngagement pvtOnly) (paths, dictionary)
        GetProgramHandlesLoop exec q sessionToken engagementType pvtOnly fuel (pageIndex + 1)
          acc.1 acc.2 (log ++ [req])

/-- Source `GetProgramHandles`: the loop from page 1 with empty `paths` and `dictionary`. -/
def GetProgramHandles (exec : Executor) (q : Query) (fuel : Nat)
    (sessionToken engagementType : String) (pvtOnly : Bool) (log : Log) :
    Option (Outcome (List String × Dict) × Log) :=
  GetProgramHandlesLoop exec q sessionToken engagementType pvtOnly fuel 1 [] [] log

/-! ## Scope resolver -/

/-- The GET request with the session cookie that the resolver functions send. -/
def scopeRequest (url token : String) : WHTTPReq :=
  { Method := "GET", URL := url,
    Headers := [⟨"Cookie", "_bugcrowd_session=" ++ token⟩,
                ⟨"User-Agent", USER_AGENT⟩,
                ⟨"Accept", "*/*"⟩] }

/-- Source `getEngagementBriefVersionDocument`. -/
def getEngagementBriefVersionDocument (exec : Executor) (q : Query) (handle token : String)
    (log : Log) : Outcome String × Log :=
  let req := scopeRequest ("https://bugcrowd.com" ++ handle) token
  match exec req with
  | .error err => (.fatal err, log ++ [req])
  | .ok res =>
    match q.apiEndpoints res.BodyString with
    | .error err => (.fatal err, log ++ [req])
    | .ok none => (.fatal "data-api-endpoints attribute not found", log ++ [req])
    | .ok (some apiEndpointsJSON) =>
      (.ok (q.getBriefVersionDocument apiEndpointsJSON ++ ".json"), log ++ [req])

/-- The inner `targetsArray.ForEach` callback of `extractScopeFromEngagement`. -/
def engagementTarget (inScope : Bool) (pData : ProgramData) (objectValue : Target) :
    ProgramData :=
  let name := objectValue.name
  let uri := objectValue.uri
  let category := objectValue.category
  let description := objectValue.description
  let uri := if uri = "" then name else uri
  if inScope then
    { pData with InScope := pData.InScope ++
        [{ Target := uri, Description := description, Category := category }] }
  else
    { pData with OutOfScope := pData.OutOfScope ++
        [{ Target := uri, Description := description, Category := category }] }

/-- The outer `scopeArray.ForEach` callback of `extractScopeFromEngagement`. -/
def engagementGroup (pData : ProgramData) (value : ScopeGroup) : ProgramData :=
  let inScope := value.inScope
  let targetsArray := value.targets
  targetsArray.foldl (engagementTarget inScope) pData

/-- Source `extractScopeFromEngagement`; `pData` is passed and returned instead of
being updated through a pointer. -/
def extractScopeFromEngagement (exec : Executor) (q : Query)
    (getBriefVersionDocument token : String) (pData : ProgramData) (log : Log) :
    Outcome ProgramData × Log :=
  let req := scopeRequest ("https://bugcrowd.com" ++ getBriefVersionDocument) token
  match exec req with
  | .error err => (.fatal err, log ++ [req])
  | .ok res =>
    let scopeArray := q.scope res.BodyString
    (.ok (scopeArray.foldl engagementGroup pData), log ++ [req])

/-- The `for i := 0; i < targetsCount; i++` loop of `extractScopeFromTargetTable`
over the rows that remain. -/
def targetTableLoop (ToLower : String → String) (categories : String) (inScope : Bool) :
    List Target → ProgramData → Outcome ProgramData
  | [], pData => .ok pData
  | row :: rest, pData =>
    let name := TrimSpace row.name
    let uri := TrimSpace row.uri
    let category := row.category
    let description := row.description
    let keep (pData : ProgramData) : Outcome ProgramData :=
      let uri := if uri = "" then name else uri
      let scopeElement : ScopeElement :=
        { Target := uri, Description := description, Category := category }
      if inScope then
        targetTableLoop ToLower categories inScope rest
          { pData with InScope := pData.InScope ++ [scopeElement] }
      else
        targetTableLoop ToLower categories inScope rest
          { pData with OutOfScope := pData.OutOfScope ++ [scopeElement] }
    if categories ≠ "all" then
      match GetCategories ToLower categories with
      | .fatal msg => .fatal msg
      | .panic msg => .panic msg
      | .ok selected =>
        match selected[0]? with
        | none => .panic "index out of range [0] with length 0"
        | some first =>
          if category ≠ first then targetTableLoop ToLower categories inScope rest pData
          else keep pData
    else keep pData

/-- Source `extractScopeFromTargetTable`. -/
def extractScopeFromTargetTable (exec : Executor) (q : Query) (ToLower : String → String)
    (scopeTableURL categories token : String) (pData : ProgramData) (inScope : Bool)
    (log : Log) : Outcome ProgramData × Log :=
  let req := scopeRequest ("https://bugcrowd.com" ++ scopeTableURL) token
  match exec req with
  | .error err => (.fatal err, log ++ [req])
  | .ok res =>
    let json := res.BodyString
    (targetTableLoop ToLower categories inScope (q.targets json) pData, log ++ [req])

/-- The `for i, scopeTableURL := range ...` loop of `extractScopeFromTargetGroups`
over the URLs that remain, `i` being the index of the first of them. -/
def targetGroupsLoop (exec : Executor) (q : Query) (ToLower : String → String)
    (body categories token : String) : List String → Nat → ProgramData → Log →
    Outcome ProgramData × Log
  | [], _, pData, log => (.ok pData, log)
  | scopeTableURL :: rest, i, pData, log =>
    let inScope := q.groupInScope body i
    match extractScopeFromTargetTable exec q ToLower scopeTableURL categories token pData
        inScope log with
    | (.ok pData', log') =>
      targetGroupsLoop exec q ToLower body categories token rest (i + 1) pData' log'
    | (.fatal msg, log') => (.fatal msg, log')
    | (.panic msg, log') => (.panic msg, log')

/-- Source `extractScopeFromTargetGroups`. -/
def extractScopeFromTargetGroups (exec : Executor) (q : Query) (ToLower : String → String)
    (url categories token : String) (pData : ProgramData) (log : Log) :
    Outcome ProgramData × Log :=
  let req := scopeRequest (url ++ "/target_groups") token
  match exec req with
  | .error err => (.fatal err, log ++ [req])
  | .ok res =>
    targetGroupsLoop exec q ToLower res.BodyString categories token
      (q.targetsUrls res.BodyString) 0 pData (log ++ [req])

/-- Source `GetProgramScope`. -/
def GetProgramScope (exec : Executor) (q : Query) (ToLower : String → String)
    (handle categories token name : String) (log : Log) : Outcome ProgramData × Log :=
  let isEngagement := HasPrefix handle "/engagements/"
  let pData : ProgramData :=
    { Url := "https://bugcrowd.com" ++ handle, Name := name, InScope := [], OutOfScope := [] }
  if isEngagement then
    match getEngagementBriefVersionDocument exec q handle token log with
    | (.ok getBriefVersionDocument, log') =>
      extractScopeFromEngagement exec q getBriefVersionDocument token pData log'
    | (.fatal msg, log') => (.fatal msg, log')
    | (.panic msg, log') => (.panic msg, log')
  else
    extractScopeFromTargetGroups exec q ToLower pData.Url categories token pData log

/-! ## Aggregator -/

/-- The worker loop of `GetAllProgramsScope` (`for handle := range handles`) when
one worker receives every handle, in queue order. -/
def workerLoop (exec : Executor) (q : Query) (ToLower : String → String)
    (categories token : String) (pathToName : Dict) :
    List String → List ProgramData → Log → Outcome (List ProgramData) × Log
  | [], programs, log => (.ok programs, log)
  | handle :: rest, programs, log =>
    match GetProgramScope exec q ToLower handle categories token (mapGet pathToName handle)
        log with
    | (.ok pScope, log') =>
      workerLoop exec q ToLower categories token pathToName rest (programs ++ [pScope]) log'
    | (.fatal msg, log') => (.fatal msg, log')
    | (.panic msg, log') => (.panic msg, log')

/-- Source `GetAllProgramsScope`, for `concurrency = 1` only: the single worker
resolves the handles one after the other in the order in which they are queued.
With more workers the outcome depends on how they interleave, which this
function does not describe; the argument `hone` keeps it from being applied to
any other value of `concurrency`.  The parameters `bbpOnly`, `outputFlags`,
`delimiterCharacter`, `includeOOS` and `printRealTime` are not used by the
source and are left out. -/
def GetAllProgramsScope (exec : Executor) (q : Query) (ToLower : String → String)
    (fuel : Nat) (token : String) (pvtOnly : Bool) (categories : String)
    (concurrency : Nat) (_hone : concurrency = 1) (log : Log) :
    Option (Outcome (List ProgramData) × Log) :=
  match GetProgramHandles exec q fuel token "bug_bounty" pvtOnly log with
  | none => none
  | some (.ok (programHandles, pathToName), log') =>
    some (workerLoop exec q ToLower categories token pathToName programHandles [] log')
  | some (.fatal msg, log') => some (.fatal msg, log')
  | some (.panic msg, log') => some (.panic msg, log')

/-! ## Vocabulary of the statements -/

/-- The element that the engagement path builds from a target: the uri, or the
name when the uri is empty. -/
def engagementElement (t : Target) : ScopeElement :=
  { Target := if t.uri = "" then t.name else t.uri,
    Description := t.description, Category := t.category }

/-- The element that the target-table path builds from a row: the trimmed uri, or
the trimmed name when the trimmed uri is empty. -/
def rowElement (row : Target) : ScopeElement :=
  { Target := if TrimSpace row.uri = "" then TrimSpace row.name else TrimSpace row.uri,
    Description := row.description, Category := row.category }

/-- Append elements to the in-scope or to the out-of-scope list. -/
def addElements (inScope : Bool) (pData : ProgramData) (es : List ScopeElement) : ProgramData :=
  if inScope then { pData with InScope := pData.InScope ++ es }
  else { pData with OutOfScope := pData.OutOfScope ++ es }

/-- The targets, in document order, of the groups whose `inScope` is `b`. -/
def targetsOf (b : Bool) : List ScopeGroup → List Target
  | [] => []
  | g :: gs => if g.inScope = b then g.targets ++ targetsOf b gs else targetsOf b gs

/-- The entries of a listing page that pass the `pvtOnly` test of the source. -/
def keptEntries (pvtOnly : Bool) (es : List Engagement) : List Engagement :=
  es.filter (fun value => !pvtOnly || (pvtOnly && value.accessStatus != "open"))

/-- The entries that the walker iterates on listing page `i`: the `ForEach`
values of its `engagements` (none when the request fails). -/
def pageEntries (exec : Executor) (q : Query) (token engagementType : String) (i : Nat) :
    List Engagement :=
  match exec (listRequest token engagementType i) with
  | .ok res => (q.engagements res.BodyString).ForEach
  | .error _ => []

/-- The kept entries of the `n` pages `p`, `p + 1`, ..., in listing order. -/
def listedEntries (exec : Executor) (q : Query) (token engagementType : String)
    (pvtOnly : Bool) : Nat → Nat → List Engagement
  | _, 0 => []
  | p, n + 1 =>
    keptEntries pvtOnly (pageEntries exec q token engagementType p) ++
      listedEntries exec q token engagementType pvtOnly (p + 1) n

/-- The dictionary after `dictionary[e.briefUrl] = e.name` for each entry in turn. -/
def setAll (dictionary : Dict) (es : List Engagement) : Dict :=
  es.foldl (fun d e => mapSet d e.briefUrl e.name) dictionary

/-- The keys of a dictionary. -/
def keys (dictionary : Dict) : List String :=
  dictionary.map Prod.fst

/-! ## A simulated platform

Listing pages of 3, 2, 0 and 5 entries for the category `bug_bounty`; for the
category `pen_test` a first page whose `engagements` is the empty object `{}`
and an empty second page; the engagement programs
`/engagements/acme-corp` and `/engagements/beta`; the target-group program
`/legacy` with two target tables.  The path `/engagements/acme-corp` is listed on
pages 1 and 2. -/

/-- The simulated HTTP executor: a body name per known URL, a transport error otherwise. -/
def simExec : Executor := fun req =>
  if req.URL = (listRequest "tok" "bug_bounty" 1).URL then .ok ⟨200, "LIST-1"⟩
  else if req.URL = (listRequest "tok" "bug_bounty" 2).URL then .ok ⟨200, "LIST-2"⟩
  else if req.URL = (listRequest "tok" "bug_bounty" 3).URL then .ok ⟨200, "LIST-3"⟩
  else if req.URL = (listRequest "tok" "bug_bounty" 4).URL then .ok ⟨200, "LIST-4"⟩
  else if req.URL = (listRequest "tok" "pen_test" 1).URL then .ok ⟨200, "LIST-OBJECT"⟩
  else if req.URL = (listRequest "tok" "pen_test" 2).URL then .ok ⟨200, "LIST-3"⟩
  else if req.URL = "https://bugcrowd.com/engagements/acme-corp" then .ok ⟨200, "PAGE-ACME"⟩
  else if req.URL = "https://bugcrowd.com/engagements/acme-corp/brief.json" then
    .ok ⟨200, "BRIEF-ACME"⟩
  else if req.URL = "https://bugcrowd.com/engagements/beta" then .ok ⟨200, "PAGE-BETA"⟩
  else if req.URL = "https://bugcrowd.com/engagements/beta/brief.json" then
    .ok ⟨200, "BRIEF-BETA"⟩
  else if req.URL = "https://bugcrowd.com/legacy/target_groups" then .ok ⟨200, "GROUPS"⟩
  else if req.URL = "https://bugcrowd.com/legacy/table-1" then .ok ⟨200, "TABLE-1"⟩
  else if req.URL = "https://bugcrowd.com/legacy/table-2" then .ok ⟨200, "TABLE-2"⟩
  else .error "no route to host"

/-- The simulated documents behind the body names of `simExec`. -/
def simQuery : Query where
  engagements := fun body =>
    if body = "LIST-1" then
      .array [⟨"/engagements/acme-corp", "Acme", "invited"⟩, ⟨"/legacy", "Legacy", "open"⟩,
              ⟨"/engagements/beta", "Beta", "invited"⟩]
    else if body = "LIST-2" then
      .array [⟨"/engagements/acme-corp", "Acme again", "invited"⟩, ⟨"/gamma", "Gamma", "open"⟩]
    else if body = "LIST-3" then .array []
    else if body = "LIST-4" then
      .array [⟨"/p1", "P1", "open"⟩, ⟨"/p2", "P2", "open"⟩, ⟨"/p3", "P3", "open"⟩,
              ⟨"/p4", "P4", "open"⟩, ⟨"/p5", "P5", "open"⟩]
    else if body = "LIST-OBJECT" then .object []
    else .missing
  apiEndpoints := fun body =>
    if body = "PAGE-ACME" then .ok (some "ENDPOINTS-ACME")
    else if body = "PAGE-BETA" then .ok (some "ENDPOINTS-BETA")
    else .ok none
  getBriefVersionDocument := fun attr =>
    if attr = "ENDPOINTS-ACME" then "/engagements/acme-corp/brief"
    else if attr = "ENDPOINTS-BETA" then "/engagements/beta/brief"
    else ""
  scope := fun body =>
    if body = "BRIEF-ACME" then
      [⟨true, [⟨"API", "", "api", "d"⟩]⟩]
    else if body = "BRIEF-BETA" then
      [⟨true, [⟨"", "", "website", "no identifier"⟩,
               ⟨"Shop", "  https://shop.example  ", "website", "padded uri"⟩]⟩,
       ⟨false, [⟨" Blog ", "", "website", "padded name"⟩]⟩]
    else []
  targetsUrls := fun body =>
    if body = "GROUPS" then ["/legacy/table-1", "/legacy/table-2"] else []
  groupInScope := fun body i => body = "GROUPS" && i == 0
  targets := fun body =>
    if body = "TABLE-1" then
      [⟨"Android app", " com.example.app ", "android", "a"⟩,
       ⟨"iOS app", "id123", "ios", "i"⟩]
    else if body = "TABLE-2" then
      [⟨" \t", "", "other", "blank name"⟩]
    else []

/-- A program record without scope entries. -/
def emptyProgram : ProgramData :=
  { Url := "https://bugcrowd.com/legacy", Name := "Legacy", InScope := [], OutOfScope := [] }

/-! ## Category resolution: proofs -/

theorem lookup_categories (k : String) :
    categories.lookup k =
      if k = "url" then some ["website"]
      else if k = "api" then some ["api"]
      else if k = "mobile" then some ["android", "ios"]
      else if k = "android" then some ["android"]
      else if k = "apple" then some ["ios"]
      else if k = "other" then some ["other"]
      else if k = "hardware" then some ["hardware"]
      else none := by
  unfold categories
  simp only [List.lookup]
  repeat' split
  all_goals simp_all

/-- GetCategories either fails with "Invalid category" or returns a non-empty
token list; it never panics. -/
theorem GetCategories_cases (ToLower : String → String) (input : String) :
    GetCategories ToLower input = .fatal "Invalid category" ∨
      ∃ first rest, GetCategories ToLower input = .ok (first :: rest) := by
  unfold GetCategories
  rw [lookup_categories]
  by_cases h1 : ToLower input = "url"
  · simp [h1]
  by_cases h2 : ToLower input = "api"
  · simp [h2]
  by_cases h3 : ToLower input = "mobile"
  · simp [h3]
  by_cases h4 : ToLower input = "android"
  · simp [h4]
  by_cases h5 : ToLower input = "apple"
  · simp [h5]
  by_cases h6 : ToLower input = "other"
  · simp [h6]
  by_cases h7 : ToLower input = "hardware"
  · simp [h7]
  simp [h1, h2, h3, h4, h5, h6, h7]

/-! ## Target-table loop: proofs -/

theorem addElements_nil (inScope : Bool) (pData : ProgramData) :
    addElements inScope pData [] = pData := by
  cases inScope <;> simp [addElements]

theorem addElements_append (inScope : Bool) (pData : ProgramData) (es fs : List ScopeElement) :
    addElements inScope (addElements inScope pData es) fs = addElements inScope pData (es ++ fs) := by
  cases inScope <;> simp [addElements]

/-- With the filter "all" the loop keeps every row. -/
theorem targetTableLoop_all (ToLower : String → String) (inScope : Bool) (rows : List Target)
    (pData : ProgramData) :
    targetTableLoop ToLower "all" inScope rows pData
      = .ok (addElements inScope pData (rows.map rowElement)) := by
  induction rows generalizing pData with
  | nil => simp [targetTableLoop, addElements_nil]
  | cons row rest ih =>
    cases inScope
    · simp [targetTableLoop, ih, addElements, rowElement]
    · simp [targetTableLoop, ih, addElements, rowElement]

/-- With a filter that resolves, the loop keeps the rows of the first token. -/
theorem targetTableLoop_ok (ToLower : String → String) (categories : String) (inScope : Bool)
    (first : String) (rest : List String) (hall : categories ≠ "all")
    (hsel : GetCategories ToLower categories = .ok (first :: rest))
    (rows : List Target) (pData : ProgramData) :
    targetTableLoop ToLower categories inScope rows pData
      = .ok (addElements inScope pData
          ((rows.filter (fun row => row.category = first)).map rowElement)) := by
  induction rows generalizing pData with
  | nil => simp [targetTableLoop, addElements_nil]
  | cons row rows ih =>
    by_cases hc : row.category = first
    · cases inScope
      · simp [targetTableLoop, hall, hsel, hc, ih, addElements, rowElement]
      · simp [targetTableLoop, hall, hsel, hc, ih, addElements, rowElement]
    · simp [targetTableLoop, hall, hsel, hc, ih]

/-- With a filter that does not resolve, the loop fails at the first row. -/
theorem targetTableLoop_fatal (ToLower : String → String) (categories : String) (inScope : Bool)
    (msg : String) (hall : categories ≠ "all")
    (hsel : GetCategories ToLower categories = .fatal msg)
    (rows : List Target) (pData : ProgramData) :
    targetTableLoop ToLower categories inScope rows pData
      = match rows with
        | [] => .ok pData
        | _ :: _ => .fatal msg := by
  cases rows with
  | nil => simp [targetTableLoop]
  | cons row rows => simp [targetTableLoop, hall, hsel]

/-! ## Engagement path: proofs -/

theorem foldl_engagementTarget (inScope : Bool) (ts : List Target) (pData : ProgramData) :
    ts.foldl (engagementTarget inScope) pData
      = addElements inScope pData (ts.map engagementElement) := by
  induction ts generalizing pData with
  | nil => simp [addElements_nil]
  | cons t ts ih =>
    cases inScope
    · simp [ih, engagementTarget, addElements, engagementElement]
    · simp [ih, engagementTarget, addElements, engagementElement]

theorem foldl_engagementGroup (groups : List ScopeGroup) (pData : ProgramData) :
    groups.foldl engagementGroup pData
      = { pData with
          InScope := pData.InScope ++ (targetsOf true groups).map engagementElement,
          OutOfScope := pData.OutOfScope ++ (targetsOf false groups).map engagementElement } := by
  induction groups generalizing pData with
  | nil => simp [targetsOf]
  | cons g gs ih =>
    cases hg : g.inScope
    · simp [ih, engagementGroup, foldl_engagementTarget, targetsOf, hg, addElements]
    · simp [ih, engagementGroup, foldl_engagementTarget, targetsOf, hg, addElements]

/-! ## Directory walker: proofs -/

theorem foldl_addEngagement (pvtOnly : Bool) (es : List Engagement) (acc : List String × Dict) :
    es.foldl (addEngagement pvtOnly) acc
      = (acc.1 ++ (keptEntries pvtOnly es).map Engagement.briefUrl,
         setAll acc.2 (keptEntries pvtOnly es)) := by
  induction es generalizing acc with
  | nil => simp [keptEntries, setAll]
  | cons e es ih =>
    by_cases h : (!pvtOnly || (pvtOnly && e.accessStatus != "open")) = true
    · simp only [List.foldl_cons, ih, addEngagement, h, if_true, keptEntries, List.filter_cons,
        List.map_cons, setAll, List.append_assoc, List.singleton_append]
    · simp only [List.foldl_cons, ih, addEngagement, h, keptEntries, List.filter_cons,
        setAll]
      simp

theorem setAll_append (d : Dict) (es fs : List Engagement) :
    setAll d (es ++ fs) = setAll (setAll d es) fs := by
  simp [setAll]

theorem pageEntries_ok (exec : Executor) (q : Query) (token engagementType : String) (i : Nat)
    (res : WHTTPRes) (h : exec (listRequest token engagementType i) = .ok res) :
    pageEntries exec q token engagementType i = (q.engagements res.BodyString).ForEach := by
  simp [pageEntries, h]

/-- The walk over `n` non-empty pages followed by an empty one. -/
theorem GetProgramHandlesLoop_spec (exec : Executor) (q : Query) (token engagementType : String)
    (pvtOnly : Bool) (n : Nat) :
    ∀ (p fuel : Nat) (paths : List String) (dictionary : Dict) (log : Log),
      (∀ i, p ≤ i → i < p + n → ∃ res, exec (listRequest token engagementType i) = .ok res ∧
        (q.engagements res.BodyString).lenArray ≠ 0) →
      (∃ res, exec (listRequest token engagementType (p + n)) = .ok res ∧
        (q.engagements res.BodyString).lenArray = 0) →
      n + 1 ≤ fuel →
      GetProgramHandlesLoop exec q token engagementType pvtOnly fuel p paths dictionary log
        = some (.ok (paths ++ (listedEntries exec q token engagementType pvtOnly p n).map
                        Engagement.briefUrl,
                     setAll dictionary (listedEntries exec q token engagementType pvtOnly p n)),
                log ++ (List.range (n + 1)).map
                  (fun i => listRequest token engagementType (p + i))) := by
  induction n with
  | zero =>
    intro p fuel paths dictionary log _ hempty hfuel
    obtain ⟨res, hres, hlen⟩ := hempty
    obtain ⟨f, rfl⟩ : ∃ f, fuel = f + 1 := ⟨fuel - 1, by omega⟩
    simp only [Nat.add_zero] at hres
    simp [GetProgramHandlesLoop, hres, hlen, listedEntries, setAll, List.range_succ]
  | succ n ih =>
    intro p fuel paths dictionary log hbefore hempty hfuel
    obtain ⟨f, rfl⟩ : ∃ f, fuel = f + 1 := ⟨fuel - 1, by omega⟩
    obtain ⟨res, hres, hlen⟩ := hbefore p (Nat.le_refl p) (by omega)
    have hstep := ih (p + 1) f
      (paths ++ (keptEntries pvtOnly (q.engagements res.BodyString).ForEach).map Engagement.briefUrl)
      (setAll dictionary (keptEntries pvtOnly (q.engagements res.BodyString).ForEach))
      (log ++ [listRequest token engagementType p])
      (fun i h1 h2 => hbefore i (by omega) (by omega))
      (by
        obtain ⟨r, hr, hl⟩ := hempty
        exact ⟨r, by rw [show p + 1 + n = p + (n + 1) by omega]; exact hr, hl⟩)
      (by omega)
    have hrange : (List.range (n + 1 + 1)).map (fun i => listRequest token engagementType (p + i))
        = listRequest token engagementType p ::
            (List.range (n + 1)).map (fun i => listRequest token engagementType (p + 1 + i)) := by
      rw [List.range_succ_eq_map]
      simp only [List.map_cons, List.map_map, Nat.add_zero, List.cons.injEq, true_and]
      apply List.map_congr_left
      intro i _
      simp only [Function.comp_apply]
      congr 1
      omega
    simp only [GetProgramHandlesLoop, hres, hlen, if_false, foldl_addEngagement, hstep, hrange,
      listedEntries, pageEntries_ok exec q token engagementType p res hres, List.map_append,
      setAll_append, List.append_assoc, List.singleton_append]

/-! ## Dictionary: proofs -/

theorem mem_keys_mapSet (d : Dict) (k v x : String) :
    x ∈ keys (mapSet d k v) ↔ x = k ∨ x ∈ keys d := by
  induction d with
  | nil => simp [mapSet, keys]
  | cons kv rest ih =>
    obtain ⟨k', v'⟩ := kv
    by_cases h : k' = k
    · subst h
      simp [mapSet, keys]
    · simp only [keys] at ih
      simp only [mapSet, h, if_false, keys, List.map_cons, List.mem_cons, ih]
      tauto

theorem nodup_keys_mapSet (d : Dict) (k v : String) (h : (keys d).Nodup) :
    (keys (mapSet d k v)).Nodup := by
  induction d with
  | nil => simp [mapSet, keys]
  | cons kv rest ih =>
    obtain ⟨k', v'⟩ := kv
    simp only [keys, List.map_cons, List.nodup_cons] at h
    by_cases hk : k' = k
    · subst hk
      simp only [mapSet, if_true, keys, List.map_cons, List.nodup_cons]
      exact h
    · have hrest := ih h.2
      have hmem := mem_keys_mapSet rest k v k'
      simp only [keys] at hrest hmem
      simp only [mapSet, hk, if_false, keys, List.map_cons, List.nodup_cons, hmem]
      exact ⟨by tauto, hrest⟩

theorem mem_keys_setAll (es : List Engagement) (d : Dict) (x : String) :
    x ∈ keys (setAll d es) ↔ x ∈ keys d ∨ x ∈ es.map Engagement.briefUrl := by
  induction es generalizing d with
  | nil => simp [setAll]
  | cons e es ih =>
    have h := ih (mapSet d e.briefUrl e.name)
    simp only [setAll, List.foldl_cons] at h ⊢
    rw [h, mem_keys_mapSet]
    simp only [List.map_cons, List.mem_cons]
    tauto

theorem nodup_keys_setAll (es : List Engagement) (d : Dict) (h : (keys d).Nodup) :
    (keys (setAll d es)).Nodup := by
  induction es generalizing d with
  | nil => simpa [setAll] using h
  | cons e es ih =>
    have h2 := ih (mapSet d e.briefUrl e.name) (nodup_keys_mapSet d e.briefUrl e.name h)
    simpa [setAll] using h2

/-! ## Target groups: proofs -/

/-- Tables that are fetched and have no row leave the program as it is: the loop
only issues their requests. -/
theorem targetGroupsLoop_empty_tables (exec : Executor) (q : Query) (ToLower : String → String)
    (body categories token : String) (pre : List String) :
    ∀ (rest : List String) (i : Nat) (pData : ProgramData) (log : Log),
      (∀ v ∈ pre, ∃ res, exec (scopeRequest ("https://bugcrowd.com" ++ v) token) = .ok res ∧
        q.targets res.BodyString = []) →
      targetGroupsLoop exec q ToLower body categories token (pre ++ rest) i pData log
        = targetGroupsLoop exec q ToLower body categories token rest (i + pre.length) pData
            (log ++ pre.map (fun v => scopeRequest ("https://bugcrowd.com" ++ v) token)) := by
  induction pre with
  | nil => intro rest i pData log _; simp
  | cons v pre ih =>
    intro rest i pData log h
    obtain ⟨res, hres, hrows⟩ := h v (List.mem_cons_self v pre)
    have hstep := ih rest (i + 1) pData
      (log ++ [scopeRequest ("https://bugcrowd.com" ++ v) token])
      (fun w hw => h w (List.mem_cons_of_mem v hw))
    have hidx : i + 1 + pre.length = i + (pre.length + 1) := by omega
    rw [hidx, List.append_assoc, List.singleton_append] at hstep
    simp only [List.cons_append, targetGroupsLoop, extractScopeFromTargetTable, hres, hrows,
      targetTableLoop, List.map_cons, List.length_cons]
    exact hstep

/-- A successful table loop appends the elements of some of the rows, in order. -/
theorem targetTableLoop_sublist (ToLower : String → String) (categories : String)
    (inScope : Bool) (rows : List Target) (pData pT : ProgramData)
    (h : targetTableLoop ToLower categories inScope rows pData = .ok pT) :
    ∃ kept : List Target,
      kept.Sublist rows ∧ pT = addElements inScope pData (kept.map rowElement) := by
  by_cases hall : categories = "all"
  · subst hall
    rw [targetTableLoop_all] at h
    exact ⟨rows, List.Sublist.refl rows, by cases h; rfl⟩
  · rcases GetCategories_cases ToLower categories with hf | ⟨first, rest, hok⟩
    · rw [targetTableLoop_fatal ToLower categories inScope _ hall hf] at h
      cases rows with
      | nil =>
        simp only [Outcome.ok.injEq] at h
        exact ⟨[], List.Sublist.refl [], by rw [← h, List.map_nil, addElements_nil]⟩
      | cons row rows => simp at h
    · rw [targetTableLoop_ok ToLower categories inScope first rest hall hok] at h
      exact ⟨rows.filter (fun row => row.category = first), List.filter_sublist rows,
        by cases h; rfl⟩

/-! ## The claims -/

/-- C4: `GetCategories` is the fixed mapping url ↦ [website], api ↦ [api],
mobile ↦ [android, ios], android ↦ [android], apple ↦ [ios], other ↦ [other],
hardware ↦ [hardware] on the lower-cased input, and it is fatal with "Invalid
category" for every other input; being a function of the lower-cased input, two
calls with the same input give the same result. -/
theorem GetCategories_fixed_mapping (ToLower : String → String) (input : String) :
    GetCategories ToLower input =
      if ToLower input = "url" then .ok ["website"]
      else if ToLower input = "api" then .ok ["api"]
      else if ToLower input = "mobile" then .ok ["android", "ios"]
      else if ToLower input = "android" then .ok ["android"]
      else if ToLower input = "apple" then .ok ["ios"]
      else if ToLower input = "other" then .ok ["other"]
      else if ToLower input = "hardware" then .ok ["hardware"]
      else .fatal "Invalid category" := by
  unfold GetCategories
  rw [lookup_categories]
  by_cases h1 : ToLower input = "url"
  · simp [h1]
  by_cases h2 : ToLower input = "api"
  · simp [h2]
  by_cases h3 : ToLower input = "mobile"
  · simp [h3]
  by_cases h4 : ToLower input = "android"
  · simp [h4]
  by_cases h5 : ToLower input = "apple"
  · simp [h5]
  by_cases h6 : ToLower input = "other"
  · simp [h6]
  by_cases h7 : ToLower input = "hardware"
  · simp [h7]
  simp [h1, h2, h3, h4, h5, h6, h7]

/-- C3: in the target-table path, when the table is fetched and the filter is
"all" or resolves through `GetCategories` to the token list `sel`, the elements
appended are those of the rows kept, in table order: every row for "all",
otherwise exactly the rows whose category is the first token of `sel`. -/
theorem extractScopeFromTargetTable_filter (exec : Executor) (q : Query)
    (ToLower : String → String) (scopeTableURL categories token : String) (pData : ProgramData)
    (inScope : Bool) (log : Log) (res : WHTTPRes) (sel : List String)
    (hres : exec (scopeRequest ("https://bugcrowd.com" ++ scopeTableURL) token) = .ok res)
    (hcat : categories = "all" ∨ GetCategories ToLower categories = .ok sel) :
    extractScopeFromTargetTable exec q ToLower scopeTableURL categories token pData inScope log
      = (.ok (addElements inScope pData
            (((q.targets res.BodyString).filter
                (fun row => categories = "all" ∨ sel.head? = some row.category)).map rowElement)),
         log ++ [scopeRequest ("https://bugcrowd.com" ++ scopeTableURL) token]) := by
  by_cases hall : categories = "all"
  · subst hall
    simp [extractScopeFromTargetTable, hres, targetTableLoop_all]
  · have hsel : GetCategories ToLower categories = .ok sel := by
      rcases hcat with h | h
      · exact absurd h hall
      · exact h
    rcases GetCategories_cases ToLower categories with hf | ⟨first, rest, hok⟩
    · rw [hf] at hsel; cases hsel
    · have hs : sel = first :: rest := by
        rw [hok] at hsel
        cases hsel
        rfl
      subst hs
      have hfilter : (q.targets res.BodyString).filter
            (fun row => categories = "all" ∨ (first :: rest).head? = some row.category)
          = (q.targets res.BodyString).filter (fun row => row.category = first) := by
        apply List.filter_congr
        intro row _
        simp [hall, eq_comm]
      simp only [extractScopeFromTargetTable, hres, hfilter,
        targetTableLoop_ok ToLower categories inScope first rest hall hok]

/-- C3, on the simulated platform: a table with one `android` row and one `ios`
row filtered with `mobile` yields only the `android` entry. -/
theorem extractScopeFromTargetTable_filter_witness :
    (simExec (scopeRequest ("https://bugcrowd.com" ++ "/legacy/table-1") "tok")
        = .ok ⟨200, "TABLE-1"⟩ ∧
      ("mobile" = "all" ∨ GetCategories asciiToLower "mobile" = .ok ["android", "ios"])) ∧
    extractScopeFromTargetTable simExec simQuery asciiToLower "/legacy/table-1" "mobile" "tok"
        emptyProgram true []
      = (.ok { emptyProgram with InScope := [⟨"com.example.app", "a", "android"⟩] },
         [scopeRequest "https://bugcrowd.com/legacy/table-1" "tok"]) :=
  ⟨⟨by decide, Or.inr (by decide)⟩,
   (extractScopeFromTargetTable_filter simExec simQuery asciiToLower "/legacy/table-1" "mobile"
      "tok" emptyProgram true [] ⟨200, "TABLE-1"⟩ ["android", "ios"] (by decide)
      (Or.inr (by decide))).trans (by decide)⟩

/-- C2: for a handle with the prefix "/engagements/", when the program page, its
`data-api-endpoints` attribute and the brief document are obtained,
`GetProgramScope` returns the program whose `InScope` holds, in document order,
one entry (uri or, when the uri is empty, name; description; category) per target
of the groups with `inScope` true, and whose `OutOfScope` holds the same over the
groups with `inScope` false; the category filter does not occur in the result. -/
theorem GetProgramScope_engagement (exec : Executor) (q : Query) (ToLower : String → String)
    (handle categories token name : String) (log : Log) (page doc : WHTTPRes) (attr : String)
    (hpre : HasPrefix handle "/engagements/" = true)
    (hpage : exec (scopeRequest ("https://bugcrowd.com" ++ handle) token) = .ok page)
    (hattr : q.apiEndpoints page.BodyString = .ok (some attr))
    (hdoc : exec (scopeRequest
        ("https://bugcrowd.com" ++ (q.getBriefVersionDocument attr ++ ".json")) token) = .ok doc) :
    GetProgramScope exec q ToLower handle categories token name log
      = (.ok { Url := "https://bugcrowd.com" ++ handle, Name := name,
               InScope := (targetsOf true (q.scope doc.BodyString)).map engagementElement,
               OutOfScope := (targetsOf false (q.scope doc.BodyString)).map engagementElement },
         log ++ [scopeRequest ("https://bugcrowd.com" ++ handle) token,
                 scopeRequest
                   ("https://bugcrowd.com" ++ (q.getBriefVersionDocument attr ++ ".json"))
                   token]) := by
  simp [GetProgramScope, hpre, getEngagementBriefVersionDocument, hpage, hattr,
    extractScopeFromEngagement, hdoc, foldl_engagementGroup]

/-- C2, on the simulated platform: the handle `/engagements/acme-corp` with the
brief document `[{inScope:true, targets:[{name:"API", uri:"", category:"api",
description:"d"}]}]` gives one in-scope entry `{"API","d","api"}` and no
out-of-scope entry, here with the filter "hardware". -/
theorem GetProgramScope_engagement_witness :
    (HasPrefix "/engagements/acme-corp" "/engagements/" = true ∧
      simQuery.scope "BRIEF-ACME" = [⟨true, [⟨"API", "", "api", "d"⟩]⟩]) ∧
    GetProgramScope simExec simQuery asciiToLower "/engagements/acme-corp" "hardware" "tok"
        "Acme" []
      = (.ok { Url := "https://bugcrowd.com/engagements/acme-corp", Name := "Acme",
               InScope := [⟨"API", "d", "api"⟩], OutOfScope := [] },
         [scopeRequest "https://bugcrowd.com/engagements/acme-corp" "tok",
          scopeRequest "https://bugcrowd.com/engagements/acme-corp/brief.json" "tok"]) :=
  ⟨⟨by decide, by decide⟩,
   (GetProgramScope_engagement simExec simQuery asciiToLower "/engagements/acme-corp" "hardware"
      "tok" "Acme" [] ⟨200, "PAGE-ACME"⟩ ⟨200, "BRIEF-ACME"⟩ "ENDPOINTS-ACME" (by decide)
      (by decide) (by decide) (by decide)).trans (by decide)⟩

/-- C5, as stated, fails: on the simulated platform the first `pen_test` page has
the empty object as `engagements`; it yields no entry, so it is the first page
with zero entries, yet the walker goes on and requests page 2. -/
theorem empty_object_page_does_not_stop :
    (simExec (listRequest "tok" "pen_test" 1) = .ok ⟨200, "LIST-OBJECT"⟩ ∧
      simQuery.engagements "LIST-OBJECT" = .object [] ∧
      (simQuery.engagements "LIST-OBJECT").ForEach = []) ∧
    GetProgramHandles simExec simQuery 2 "tok" "pen_test" false []
      = some (.ok ([], []),
          [listRequest "tok" "pen_test" 1, listRequest "tok" "pen_test" 2]) := by
  decide

/-- C5, amended: when page k is the first listing page whose `engagements`, taken as
an array (`result.Array()`), has no element (an empty array, or a missing or
`null` value), `GetProgramHandles` returns (for every fuel of at least k
iterations) after requesting exactly pages 1, 2, ..., k, once each and in
increasing order; nothing is assumed about the pages beyond k. -/
theorem GetProgramHandles_stops_at_first_empty_page (exec : Executor) (q : Query)
    (fuel : Nat) (token engagementType : String) (pvtOnly : Bool) (log : Log) (k : Nat)
    (hk : 1 ≤ k)
    (hbefore : ∀ i, 1 ≤ i → i < k →
      ∃ res, exec (listRequest token engagementType i) = .ok res ∧
        (q.engagements res.BodyString).lenArray ≠ 0)
    (hempty : ∃ res, exec (listRequest token engagementType k) = .ok res ∧
      (q.engagements res.BodyString).lenArray = 0)
    (hfuel : k ≤ fuel) :
    ∃ handles, GetProgramHandles exec q fuel token engagementType pvtOnly log
      = some (.ok handles,
          log ++ (List.range k).map (fun i => listRequest token engagementType (1 + i))) := by
  obtain ⟨n, rfl⟩ : ∃ n, k = n + 1 := ⟨k - 1, by omega⟩
  refine ⟨_, GetProgramHandlesLoop_spec exec q token engagementType pvtOnly n 1 fuel [] [] log
    (fun i h1 h2 => hbefore i h1 (by omega)) ?_ hfuel⟩
  obtain ⟨r, hr, hl⟩ := hempty
  exact ⟨r, by rw [show 1 + n = n + 1 by omega]; exact hr, hl⟩

/-- C5 amended, on the simulated platform: pages of 3, 2, 0 and 5 entries give
exactly the three requests for pages 1, 2 and 3. -/
theorem GetProgramHandles_stops_at_first_empty_page_witness :
    ((simQuery.engagements "LIST-1").lenArray = 3 ∧
      (simQuery.engagements "LIST-2").lenArray = 2 ∧
      (simQuery.engagements "LIST-3").lenArray = 0 ∧
      (simQuery.engagements "LIST-4").lenArray = 5) ∧
    ∃ handles, GetProgramHandles simExec simQuery 3 "tok" "bug_bounty" false []
      = some (.ok handles,
          [] ++ (List.range 3).map (fun i => listRequest "tok" "bug_bounty" (1 + i))) :=
  ⟨by decide,
   GetProgramHandles_stops_at_first_empty_page simExec simQuery 3 "tok" "bug_bounty" false [] 3
    (by decide)
    (by
      intro i h1 h2
      interval_cases i
      · exact ⟨⟨200, "LIST-1"⟩, by decide, by decide⟩
      · exact ⟨⟨200, "LIST-2"⟩, by decide, by decide⟩)
    ⟨⟨200, "LIST-3"⟩, by decide, by decide⟩
    (by decide)⟩

/-- C6, as stated, fails: on the simulated platform the path
`/engagements/acme-corp`, listed on pages 1 and 2, occurs twice in the handle
sequence, and the aggregator requests that program's page twice. -/
theorem GetProgramHandles_not_deduplicated :
    (GetProgramHandles simExec simQuery 3 "tok" "bug_bounty" true []).map (fun r => r.1)
      = some (.ok (["/engagements/acme-corp", "/engagements/beta", "/engagements/acme-corp"],
                   [("/engagements/acme-corp", "Acme again"), ("/engagements/beta", "Beta")])) ∧
    (GetAllProgramsScope simExec simQuery asciiToLower 3 "tok" true "all" 1 rfl []).map
        (fun r => r.2.count (scopeRequest "https://bugcrowd.com/engagements/acme-corp" "tok"))
      = some 2 := by
  decide

/-- C6, amended: when pages 1, ..., k-1 have a non-empty `engagements` array and
page k an empty one, the handle sequence returned by `GetProgramHandles` holds,
in listing order, the path of every listed entry that passes the `pvtOnly` test
(one element per entry, so a path listed more than once occurs more than once),
while the name dictionary has exactly the paths of the sequence as keys, each
key once. -/
theorem GetProgramHandles_paths_and_dictionary (exec : Executor) (q : Query)
    (fuel : Nat) (token engagementType : String) (pvtOnly : Bool) (log : Log) (k : Nat)
    (hk : 1 ≤ k)
    (hbefore : ∀ i, 1 ≤ i → i < k →
      ∃ res, exec (listRequest token engagementType i) = .ok res ∧
        (q.engagements res.BodyString).lenArray ≠ 0)
    (hempty : ∃ res, exec (listRequest token engagementType k) = .ok res ∧
      (q.engagements res.BodyString).lenArray = 0)
    (hfuel : k ≤ fuel) :
    ∃ dictionary log',
      GetProgramHandles exec q fuel token engagementType pvtOnly log
        = some (.ok ((listedEntries exec q token engagementType pvtOnly 1 (k - 1)).map
                      Engagement.briefUrl, dictionary), log') ∧
      (keys dictionary).Nodup ∧
      ∀ x, x ∈ keys dictionary ↔
        x ∈ (listedEntries exec q token engagementType pvtOnly 1 (k - 1)).map
              Engagement.briefUrl := by
  obtain ⟨n, rfl⟩ : ∃ n, k = n + 1 := ⟨k - 1, by omega⟩
  have hspec := GetProgramHandlesLoop_spec exec q token engagementType pvtOnly n 1 fuel [] [] log
    (fun i h1 h2 => hbefore i h1 (by omega))
    (by
      obtain ⟨r, hr, hl⟩ := hempty
      exact ⟨r, by rw [show 1 + n = n + 1 by omega]; exact hr, hl⟩)
    hfuel
  refine ⟨setAll [] (listedEntries exec q token engagementType pvtOnly 1 n),
    log ++ (List.range (n + 1)).map (fun i => listRequest token engagementType (1 + i)),
    ?_, ?_, ?_⟩
  · simpa [GetProgramHandles] using hspec
  · exact nodup_keys_setAll _ [] (by simp [keys])
  · intro x
    rw [mem_keys_setAll]
    simp [keys]

/-- C6 amended, on the simulated platform with `pvtOnly` set: the three kept
entries of pages 1 and 2 give three handles. -/
theorem GetProgramHandles_paths_and_dictionary_witness :
    (listedEntries simExec simQuery "tok" "bug_bounty" true 1 (3 - 1)).map Engagement.briefUrl
      = ["/engagements/acme-corp", "/engagements/beta", "/engagements/acme-corp"] ∧
    ∃ dictionary log',
      GetProgramHandles simExec simQuery 3 "tok" "bug_bounty" true []
        = some (.ok ((listedEntries simExec simQuery "tok" "bug_bounty" true 1 (3 - 1)).map
                      Engagement.briefUrl, dictionary), log') ∧
      (keys dictionary).Nodup ∧
      ∀ x, x ∈ keys dictionary ↔
        x ∈ (listedEntries simExec simQuery "tok" "bug_bounty" true 1 (3 - 1)).map
              Engagement.briefUrl :=
  ⟨by decide,
   GetProgramHandles_paths_and_dictionary simExec simQuery 3 "tok" "bug_bounty" true [] 3
    (by decide)
    (by
      intro i h1 h2
      interval_cases i
      · exact ⟨⟨200, "LIST-1"⟩, by decide, by decide⟩
      · exact ⟨⟨200, "LIST-2"⟩, by decide, by decide⟩)
    ⟨⟨200, "LIST-3"⟩, by decide, by decide⟩
    (by decide)⟩

/-- C1, as stated, fails: on the simulated platform the engagement path appends an
element with an empty `Target` for the brief target whose name and uri are both
empty, and the target-table path appends one for the row whose uri is empty and
whose name is white space. -/
theorem empty_target_produced :
    (GetProgramScope simExec simQuery asciiToLower "/engagements/beta" "all" "tok" "Beta" []).1
      = .ok { Url := "https://bugcrowd.com/engagements/beta", Name := "Beta",
              InScope := [⟨"", "no identifier", "website"⟩,
                          ⟨"  https://shop.example  ", "padded uri", "website"⟩],
              OutOfScope := [⟨" Blog ", "padded name", "website"⟩] } ∧
    (extractScopeFromTargetTable simExec simQuery asciiToLower "/legacy/table-2" "all" "tok"
        emptyProgram false []).1
      = .ok { emptyProgram with OutOfScope := [⟨"", "blank name", "other"⟩] } := by
  decide

/-- C1, amended: every element that the resolver appends takes its `Target` from the
uri of its source target, or from the name when the uri is empty.  In both
paths the `Target` is non-empty whenever the uri or the name has a character
that is not white space, and it is empty when the uri and the name are both
empty; in the target-table path, which trims both, it is non-empty exactly when
the trimmed uri or the trimmed name is non-empty.  Stated for a brief document
that is fetched, whose every target yields an element, and for a target table
that is fetched and processed without failure, whose elements come from some of
its rows, in order. -/
theorem target_is_uri_or_name (exec : Executor) (q : Query) (ToLower : String → String)
    (brief scopeTableURL categories token : String) (pData pT : ProgramData) (inScope : Bool)
    (log logT : Log) (doc table : WHTTPRes)
    (hdoc : exec (scopeRequest ("https://bugcrowd.com" ++ brief) token) = .ok doc)
    (hfetch : exec (scopeRequest ("https://bugcrowd.com" ++ scopeTableURL) token) = .ok table)
    (htable : extractScopeFromTargetTable exec q ToLower scopeTableURL categories token pData
      inScope log = (.ok pT, logT)) :
    ((extractScopeFromEngagement exec q brief token pData log).1
        = .ok { pData with
            InScope := pData.InScope ++
              (targetsOf true (q.scope doc.BodyString)).map engagementElement,
            OutOfScope := pData.OutOfScope ++
              (targetsOf false (q.scope doc.BodyString)).map engagementElement } ∧
      ∀ t : Target,
        ((TrimSpace t.uri ≠ "" ∨ TrimSpace t.name ≠ "") → (engagementElement t).Target ≠ "") ∧
        (t.uri = "" ∧ t.name = "" → (engagementElement t).Target = "")) ∧
    ((∃ kept : List Target, kept.Sublist (q.targets table.BodyString) ∧
        pT = addElements inScope pData (kept.map rowElement)) ∧
      ∀ row : Target,
        (rowElement row).Target
          = (if TrimSpace row.uri = "" then TrimSpace row.name else TrimSpace row.uri) ∧
        ((rowElement row).Target ≠ "" ↔ (TrimSpace row.uri ≠ "" ∨ TrimSpace row.name ≠ ""))) := by
  refine ⟨⟨?_, ?_⟩, ⟨?_, ?_⟩⟩
  · simp [extractScopeFromEngagement, hdoc, foldl_engagementGroup]
  · intro t
    have hempty : TrimSpace "" = "" := by decide
    refine ⟨?_, ?_⟩
    · intro h
      by_cases hu : t.uri = ""
      · have hn : t.name ≠ "" := by
          intro hn
          rw [hu, hn, hempty] at h
          simp at h
        simp [engagementElement, hu, hn]
      · simp [engagementElement, hu]
    · intro h
      simp [engagementElement, h.1, h.2]
  · simp only [extractScopeFromTargetTable, hfetch, Prod.mk.injEq] at htable
    exact targetTableLoop_sublist ToLower categories inScope _ pData pT htable.1
  · intro row
    refine ⟨rfl, ?_⟩
    by_cases hu : TrimSpace row.uri = ""
    · simp [rowElement, hu]
    · simp [rowElement, hu]

/-- C1 amended, on the simulated platform: the brief of `/engagements/beta` and the
first table of `/legacy`. -/
theorem target_is_uri_or_name_witness :
    (simExec (scopeRequest ("https://bugcrowd.com" ++ "/engagements/beta/brief.json") "tok")
        = .ok ⟨200, "BRIEF-BETA"⟩ ∧
      simExec (scopeRequest ("https://bugcrowd.com" ++ "/legacy/table-1") "tok")
        = .ok ⟨200, "TABLE-1"⟩ ∧
      extractScopeFromTargetTable simExec simQuery asciiToLower "/legacy/table-1" "apple" "tok"
        emptyProgram true []
        = (.ok { emptyProgram with InScope := [⟨"id123", "i", "ios"⟩] },
           [scopeRequest "https://bugcrowd.com/legacy/table-1" "tok"])) ∧
    (extractScopeFromEngagement simExec simQuery "/engagements/beta/brief.json" "tok"
        emptyProgram []).1
      = .ok { emptyProgram with
          InScope := emptyProgram.InScope ++
            (targetsOf true (simQuery.scope "BRIEF-BETA")).map engagementElement,
          OutOfScope := emptyProgram.OutOfScope ++
            (targetsOf false (simQuery.scope "BRIEF-BETA")).map engagementElement } :=
  ⟨⟨by decide, by decide, by decide⟩,
   (target_is_uri_or_name simExec simQuery asciiToLower "/engagements/beta/brief.json"
      "/legacy/table-1" "apple" "tok" emptyProgram
      { emptyProgram with InScope := [⟨"id123", "i", "ios"⟩] } true []
      [scopeRequest "https://bugcrowd.com/legacy/table-1" "tok"] ⟨200, "BRIEF-BETA"⟩
      ⟨200, "TABLE-1"⟩ (by decide) (by decide) (by decide)).1.1⟩

/-- C8, as stated, fails: on the simulated platform a run with the unrecognised
filter "bogus" issues nine requests and ends normally when only engagement
programs are resolved (`pvtOnly` set), and it ends with "Invalid category" only
after seven requests when the target-group program is resolved too. -/
theorem invalid_filter_not_rejected_at_startup :
    ("bogus" ≠ "all" ∧ GetCategories asciiToLower "bogus" = .fatal "Invalid category") ∧
    (GetAllProgramsScope simExec simQuery asciiToLower 3 "tok" true "bogus" 1 rfl []).map
        (fun r => (r.1, r.2.length))
      = some (.ok [⟨"https://bugcrowd.com/engagements/acme-corp", "Acme again",
                     [⟨"API", "d", "api"⟩], []⟩,
                   ⟨"https://bugcrowd.com/engagements/beta", "Beta",
                     [⟨"", "no identifier", "website"⟩,
                      ⟨"  https://shop.example  ", "padded uri", "website"⟩],
                     [⟨" Blog ", "padded name", "website"⟩]⟩,
                   ⟨"https://bugcrowd.com/engagements/acme-corp", "Acme again",
                     [⟨"API", "d", "api"⟩], []⟩], 9) ∧
    (GetAllProgramsScope simExec simQuery asciiToLower 3 "tok" false "bogus" 1 rfl []).map
        (fun r => (r.1, r.2.length))
      = some (.fatal "Invalid category", 7) := by
  decide

/-- C8, amended: with a filter that is neither "all" nor recognised, the filter is
not checked at startup but at the first target-table row.  A target table that
is fetched is fatal with "Invalid category" exactly when it has a row, its
request having been issued.  Resolving a target-group program whose
`target_groups` and tables are fetched is fatal with "Invalid category" at the
first table that has a row, after the `target_groups` request and the requests
of every table up to that one, and returns the program with an empty scope
when no table has a row.  Resolving a program with an "/engagements/" handle
does not consult the filter. -/
theorem invalid_filter_fails_at_first_table_row (ToLower : String → String)
    (categories : String) (hall : categories ≠ "all")
    (hbad : GetCategories ToLower categories = .fatal "Invalid category") :
    (∀ (exec : Executor) (q : Query) (scopeTableURL token : String) (pData : ProgramData)
        (inScope : Bool) (log : Log) (res : WHTTPRes),
        exec (scopeRequest ("https://bugcrowd.com" ++ scopeTableURL) token) = .ok res →
        extractScopeFromTargetTable exec q ToLower scopeTableURL categories token pData inScope
            log
          = (match q.targets res.BodyString with
             | [] => .ok pData
             | _ :: _ => .fatal "Invalid category",
             log ++ [scopeRequest ("https://bugcrowd.com" ++ scopeTableURL) token])) ∧
    (∀ (exec : Executor) (q : Query) (handle token name : String) (log : Log)
        (groups : WHTTPRes) (pre : List String) (u : String) (post : List String),
        HasPrefix handle "/engagements/" = false →
        exec (scopeRequest ("https://bugcrowd.com" ++ handle ++ "/target_groups") token)
          = .ok groups →
        q.targetsUrls groups.BodyString = pre ++ u :: post →
        (∀ v ∈ pre, ∃ res, exec (scopeRequest ("https://bugcrowd.com" ++ v) token) = .ok res ∧
          q.targets res.BodyString = []) →
        (∃ res, exec (scopeRequest ("https://bugcrowd.com" ++ u) token) = .ok res ∧
          q.targets res.BodyString ≠ []) →
        GetProgramScope exec q ToLower handle categories token name log
          = (.fatal "Invalid category",
             log ++ scopeRequest ("https://bugcrowd.com" ++ handle ++ "/target_groups") token ::
               (pre ++ [u]).map (fun v => scopeRequest ("https://bugcrowd.com" ++ v) token))) ∧
    (∀ (exec : Executor) (q : Query) (handle token name : String) (log : Log)
        (groups : WHTTPRes),
        HasPrefix handle "/engagements/" = false →
        exec (scopeRequest ("https://bugcrowd.com" ++ handle ++ "/target_groups") token)
          = .ok groups →
        (∀ v ∈ q.targetsUrls groups.BodyString,
          ∃ res, exec (scopeRequest ("https://bugcrowd.com" ++ v) token) = .ok res ∧
            q.targets res.BodyString = []) →
        GetProgramScope exec q ToLower handle categories token name log
          = (.ok { Url := "https://bugcrowd.com" ++ handle, Name := name,
                   InScope := [], OutOfScope := [] },
             log ++ scopeRequest ("https://bugcrowd.com" ++ handle ++ "/target_groups") token ::
               (q.targetsUrls groups.BodyString).map
                 (fun v => scopeRequest ("https://bugcrowd.com" ++ v) token))) ∧
    (∀ (exec : Executor) (q : Query) (handle other token name : String) (log : Log),
        HasPrefix handle "/engagements/" = true →
        GetProgramScope exec q ToLower handle categories token name log
          = GetProgramScope exec q ToLower handle other token name log) := by
  refine ⟨?_, ?_, ?_, ?_⟩
  · intro exec q scopeTableURL token pData inScope log res hres
    simp only [extractScopeFromTargetTable, hres,
      targetTableLoop_fatal ToLower categories inScope "Invalid category" hall hbad]
  · intro exec q handle token name log groups pre u post hp hgroups hurls hpre hu
    obtain ⟨res, hres, hrows⟩ := hu
    obtain ⟨row, rows, hrow⟩ : ∃ row rows, q.targets res.BodyString = row :: rows := by
      cases hq : q.targets res.BodyString with
      | nil => exact absurd hq hrows
      | cons row rows => exact ⟨row, rows, rfl⟩
    simp only [GetProgramScope, hp, extractScopeFromTargetGroups, hgroups, hurls,
      targetGroupsLoop_empty_tables exec q ToLower groups.BodyString categories token pre
        (u :: post) 0 _ _ hpre,
      targetGroupsLoop, extractScopeFromTargetTable, hres, hrow,
      targetTableLoop_fatal ToLower categories _ "Invalid category" hall hbad]
    simp
  · intro exec q handle token name log groups hp hgroups hempty
    have h := targetGroupsLoop_empty_tables exec q ToLower groups.BodyString categories token
      (q.targetsUrls groups.BodyString) [] 0
      { Url := "https://bugcrowd.com" ++ handle, Name := name, InScope := [], OutOfScope := [] }
      (log ++ [scopeRequest ("https://bugcrowd.com" ++ handle ++ "/target_groups") token])
      hempty
    rw [List.append_nil] at h
    simp only [GetProgramScope, hp, extractScopeFromTargetGroups, hgroups, h, targetGroupsLoop]
    simp
  · intro exec q handle other token name log hp
    simp [GetProgramScope, hp]

/-- C8 amended, on the simulated platform: with the filter "bogus" the resolution
of `/legacy` is fatal at its first table, after two requests. -/
theorem invalid_filter_fails_at_first_table_row_witness :
    ("bogus" ≠ "all" ∧ GetCategories asciiToLower "bogus" = .fatal "Invalid category") ∧
    GetProgramScope simExec simQuery asciiToLower "/legacy" "bogus" "tok" "Legacy" []
      = (.fatal "Invalid category",
         [scopeRequest "https://bugcrowd.com/legacy/target_groups" "tok",
          scopeRequest "https://bugcrowd.com/legacy/table-1" "tok"]) :=
  ⟨⟨by decide, by decide⟩,
   ((invalid_filter_fails_at_first_table_row asciiToLower "bogus" (by decide)
        (by decide)).2.1
      simExec simQuery "/legacy" "tok" "Legacy" [] ⟨200, "GROUPS"⟩ [] "/legacy/table-1"
      ["/legacy/table-2"] (by decide) (by decide) (by decide) (by simp)
      ⟨⟨200, "TABLE-1"⟩, by decide, by decide⟩).trans (by decide)⟩

/-- C9: the engagement path does not trim.  On the simulated platform the brief
target with uri "  https://shop.example  " and the one with name " Blog " yield
elements whose `Target` keeps the surrounding white space, whereas the
target-table path yields "com.example.app" for the uri " com.example.app ". -/
theorem extractScopeFromEngagement_keeps_whitespace :
    (extractScopeFromEngagement simExec simQuery "/engagements/beta/brief.json" "tok"
        emptyProgram []).1
      = .ok { emptyProgram with
              InScope := [⟨"", "no identifier", "website"⟩,
                          ⟨"  https://shop.example  ", "padded uri", "website"⟩],
              OutOfScope := [⟨" Blog ", "padded name", "website"⟩] } ∧
    TrimSpace "  https://shop.example  " = "https://shop.example" ∧
    TrimSpace " Blog " = "Blog" ∧
    (extractScopeFromTargetTable simExec simQuery asciiToLower "/legacy/table-1" "android" "tok"
        emptyProgram true []).1
      = .ok { emptyProgram with InScope := [⟨"com.example.app", "a", "android"⟩] } := by
  decide

/-- C10: the redirect handler takes the text between the first and the second "="
of the URL.  With another parameter before `login_challenge` it records
"researcher&login_challenge", with another parameter after it it records
"abc123&state", and for a URL that contains "login_challenge" but no "=" the
index expression panics. -/
theorem CheckRedirect_wrong_value_and_panic :
    CheckRedirect ""
        "https://identity.bugcrowd.com/login?user_hint=researcher&login_challenge=abc123"
      = .ok "researcher&login_challenge" ∧
    CheckRedirect "" "https://identity.bugcrowd.com/login?login_challenge=abc123&state=xyz"
      = .ok "abc123&state" ∧
    CheckRedirect "" "https://identity.bugcrowd.com/login_challenge"
      = .panic "index out of range [1] with length 1" := by
  decide

end Bugcrowd
